import Mathlib

/-!
Shallow embedding of the trading-project data pipeline
(`data_acquirer.py`, `data_processor.py`, `realtime_data.py`) and proofs
about its specified properties.

Conventions of the embedding:
* pandas DataFrames become `Frame`: a column-major table (pandas stores
  columns) with an epoch-millisecond timestamp index and a timezone tag;
* float cells become `Cell`: an exact rational (`num`), `nan` (missing),
  signed infinity (`inf`, produced by division by zero in `pct_change`),
  or a non-numeric value (`txt`, an object-dtype string);
* Python exceptions become explicit `Option`/sum results, with the
  `try`/`except` structure of each function mirrored by pattern matches;
* the WebSocket / REST client is an external capability, modelled by the
  value it delivers or the exception it raises.
-/

/-- A float cell of a pandas column: an exact rational, NaN, a signed
infinity, or a non-numeric (object-dtype) string value.  Python's float
repr round-trips exactly, so exact rationals model the numeric cells
faithfully for equality claims "within floating-point formatting
tolerance". -/
inductive Cell where
  | num (q : Rat)
  | nan
  | inf (negative : Bool)
  | txt (s : String)
deriving DecidableEq, Repr

/-- Timezone tag of a DatetimeIndex: timezone-aware UTC, timezone-naive,
or aware with some non-UTC display zone.  Instants are stored as UTC
epoch milliseconds in every case (pandas stores tz-aware datetimes as UTC
internally, so `tz_convert` never changes the instants). -/
inductive Tz where
  | utc
  | naive
  | other
deriving DecidableEq, Repr

/-- A pandas DataFrame with a datetime index: epoch-ms instants, a
timezone tag, and named columns (column-major, as pandas stores them). -/
structure Frame where
  index : List Nat
  tz : Tz
  cols : List (String × List Cell)
deriving DecidableEq, Repr

namespace Frame

/-- `df.empty`: true when either axis has length zero. -/
def isEmpty (f : Frame) : Bool :=
  f.index.isEmpty || f.cols.isEmpty

/-- Column names, in order. -/
def names (f : Frame) : List String :=
  f.cols.map Prod.fst

/-- `df[name]`: the cells of a named column (`[]` when absent). -/
def getCol (f : Frame) (name : String) : List Cell :=
  match f.cols.find? (fun c => c.fst = name) with
  | some c => c.snd
  | none => []

/-- Membership test for a column name. -/
def hasCol (f : Frame) (name : String) : Bool :=
  f.cols.any (fun c => c.fst = name)

/-- `df[name] = vals`: replace the column in place if present, else
append it on the right (pandas column assignment). -/
def setCol (f : Frame) (name : String) (vals : List Cell) : Frame :=
  if f.hasCol name then
    { f with cols := f.cols.map (fun c => if c.fst = name then (name, vals) else c) }
  else
    { f with cols := f.cols ++ [(name, vals)] }

/-- Well-formedness: every column has exactly one cell per index entry. -/
def Wf (f : Frame) : Prop :=
  ∀ c ∈ f.cols, c.snd.length = f.index.length

instance : DecidablePred Wf := fun f =>
  inferInstanceAs (Decidable (∀ c ∈ f.cols, c.snd.length = f.index.length))

end Frame

/-- NaN test (`pd.isnull` on a cell): only `nan` is null; strings and
infinities are not. -/
def Cell.isNan : Cell → Bool
  | .nan => true
  | _ => false

/-- Object-dtype test: a column holds a non-numeric value. -/
def Cell.isTxt : Cell → Bool
  | .txt _ => true
  | _ => false

/-! ## Streaming handler (`realtime_data.py`) -/

/-- A row appended to a per-symbol buffer by `handle_message`:
`{'timestamp': pd.to_datetime(t, unit='ms', utc=True), 'price': float(p),
'size': int(s), 'exchange': x, 'conditions': c or []}`.
`pd.to_datetime(None)` yields NaT (no exception), hence `Option` there. -/
structure TradeRow where
  timestamp : Option Nat
  price : Rat
  size : Int
  exchange : Option Nat
  conditions : List Int
deriving DecidableEq, Repr

/-- A decoded JSON trade message; each field is what `message.get(key)`
returns, `none` standing for an absent key (Python `None`). -/
structure WsMsg where
  ev : Option String
  sym : Option String
  t : Option Nat
  p : Option Rat
  s : Option Int
  x : Option Nat
  c : Option (List Int)
deriving DecidableEq, Repr

/-- Mutable state of `RealTimeDataHandler`: `self.data_buffer` (one list
of rows per subscribed symbol) and the set of symbols holding an entry of
`self.callbacks`. -/
structure HState where
  data_buffer : List (String × List TradeRow)
  callbacks : List String
deriving DecidableEq, Repr

/-- `ticker in self.data_buffer`. -/
def HState.buffered (st : HState) (tk : String) : Bool :=
  st.data_buffer.any (fun b => b.fst = tk)

/-- The buffer list for a symbol (`[]` when absent). -/
def HState.bufferOf (st : HState) (tk : String) : List TradeRow :=
  match st.data_buffer.find? (fun b => b.fst = tk) with
  | some b => b.snd
  | none => []

/-- `self.data_buffer[ticker].append(row)`. -/
def HState.appendRow (st : HState) (tk : String) (row : TradeRow) : HState :=
  { st with data_buffer :=
      st.data_buffer.map (fun b => if b.fst = tk then (b.fst, b.snd ++ [row]) else b) }

/-- Observable events of one `handle_message` call, in program order. -/
inductive HEvent where
  | append (sym : String) (row : TradeRow)
  | callbackRun (sym : String) (row : TradeRow)
  | logError
deriving DecidableEq, Repr

/-- Exceptions of the embedded Python fragments. -/
inductive PyExn where
  | typeError
  | callbackError
  | badResponse (status : Nat) (text : Option String)
  | connectionError
  | other
deriving DecidableEq, Repr

/-- Construction of the `trade_data` dict.  `float(message.get('p'))` and
`int(message.get('s'))` raise `TypeError` when the key is absent, so the
row exists only when both are present; `message.get('c', [])` defaults to
the empty list. -/
def buildTradeRow (m : WsMsg) : Option TradeRow :=
  match m.p, m.s with
  | some p, some s =>
      some { timestamp := m.t, price := p, size := s,
             exchange := m.x, conditions := m.c.getD [] }
  | _, _ => none

/-- The `try` block of `handle_message`: returns the state after the
block, the events it emitted, and the exception it raised (if any).
State changes made before an exception persist (Python has no rollback).
`cbFails tk row` models whether the registered callback raises on that
invocation. -/
def handle_message_try (cbFails : String → TradeRow → Bool) (st : HState)
    (m : WsMsg) : HState × List HEvent × Option PyExn :=
  if m.ev = some "T" then
    match m.sym with
    | some tk =>
        if st.buffered tk then
          match buildTradeRow m with
          | some row =>
              let st' := st.appendRow tk row
              if tk ∈ st.callbacks then
                (st', [.append tk row, .callbackRun tk row],
                 if cbFails tk row then some .callbackError else none)
              else
                (st', [.append tk row], none)
          | none => (st, [], some .typeError)
        else (st, [], none)
    | none => (st, [], none)
  else (st, [], none)

/-- `handle_message`: the `try` block wrapped in `except Exception`,
which logs the error and returns normally. -/
def handle_message (cbFails : String → TradeRow → Bool) (st : HState)
    (m : WsMsg) : HState × List HEvent :=
  match handle_message_try cbFails st m with
  | (st', evs, some _) => (st', evs ++ [.logError])
  | (st', evs, none) => (st', evs)

/-- Error that terminates `start_streaming`'s receive loop. -/
inductive StreamErr where
  | decodeError
deriving DecidableEq, Repr

/-- A raw WebSocket payload: `some m` when `json.loads` succeeds with the
decoded message, `none` when it raises (malformed JSON). -/
abbrev RawMsg := Option WsMsg

/-- The receive loop of `start_streaming` over the finite list of
payloads delivered before the session ends.  The whole loop sits in one
`try`: a `json.loads` failure escapes `handle_message` (which is called
on the already-decoded value), is logged, and re-raised — terminating
the loop.  A failure inside `handle_message` is caught there and the
loop continues. -/
def start_streaming (cbFails : String → TradeRow → Bool) (st : HState) :
    List RawMsg → Except StreamErr HState
  | [] => .ok st
  | none :: _ => .error .decodeError
  | some m :: rest => start_streaming cbFails (handle_message cbFails st m).fst rest

/-! ## Historical fetcher (`data_acquirer.py`) -/

/-- One Polygon aggregate object: `agg.timestamp` is UNIX ms; `vwap` and
`transactions` are read with `getattr(agg, _, None)` and may be absent. -/
structure Agg where
  timestamp : Nat
  o : Rat
  h : Rat
  l : Rat
  c : Rat
  volume : Rat
  vwap : Option Rat
  transactions : Option Rat
deriving DecidableEq, Repr

/-- Behaviour of the external REST client for one request: the drained
`list(client.list_aggs(...))`, or the exception the drain raises. -/
inductive ClientOutcome where
  | ok (aggs : List Agg)
  | raiseBadResponse (status : Nat) (text : Option String)
  | raiseConnectionError
  | raiseOther
deriving DecidableEq, Repr

/-- `list(client.list_aggs(...))` as an exception-explicit call. -/
def clientCall : ClientOutcome → Except PyExn (List Agg)
  | .ok aggs => .ok aggs
  | .raiseBadResponse st tx => .error (.badResponse st tx)
  | .raiseConnectionError => .error .connectionError
  | .raiseOther => .error .other

/-- Log records emitted by `fetch_stock_data`, by call site. -/
inductive FetchLog where
  | infoAttempt
  | warnNoData
  | warnEmptyDf
  | infoFetched (n : Nat)
  | errBadResponse
  | errConnection
  | errUnexpected
deriving DecidableEq, Repr

/-- Optional cell: `None` becomes NaN in the built DataFrame. -/
def optCell : Option Rat → Cell
  | some q => .num q
  | none => .nan

/-- `pd.DataFrame([...]).set_index('timestamp')` over the drained
aggregates, in the order the client delivered them (no sorting or
deduplication is performed by the fetcher). -/
def aggsToFrame (aggs : List Agg) : Frame :=
  { index := aggs.map (fun a => a.timestamp),
    tz := .utc,
    cols := [("open", aggs.map (fun a => Cell.num a.o)),
             ("high", aggs.map (fun a => Cell.num a.h)),
             ("low", aggs.map (fun a => Cell.num a.l)),
             ("close", aggs.map (fun a => Cell.num a.c)),
             ("volume", aggs.map (fun a => Cell.num a.volume)),
             ("vwap", aggs.map (fun a => optCell a.vwap)),
             ("transactions", aggs.map (fun a => optCell a.transactions))] }

/-- The `try` body of `fetch_stock_data`: drain the client, return `None`
on an empty drain (logged as a warning) or on an empty DataFrame, else
the built frame. -/
def fetch_body (aggs : List Agg) : Option Frame × List FetchLog :=
  if aggs.isEmpty then
    (none, [.infoAttempt, .warnNoData])
  else
    let df := aggsToFrame aggs
    if df.index.isEmpty then
      (none, [.infoAttempt, .warnEmptyDf])
    else
      (some df, [.infoAttempt, .infoFetched df.index.length])

/-- `fetch_stock_data` with its `try`/`except` structure explicit: the
body may raise; `except BadResponse`, `except ConnectionError` and the
final `except Exception` each log and return `None`, so the `Except`
layer records whether any exception escapes to the caller. -/
def fetch_stock_dataE (client : ClientOutcome) :
    Except PyExn (Option Frame × List FetchLog) :=
  match clientCall client with
  | .ok aggs => .ok (fetch_body aggs)
  | .error (.badResponse _ _) => .ok (none, [.infoAttempt, .errBadResponse])
  | .error .connectionError => .ok (none, [.infoAttempt, .errConnection])
  | .error _ => .ok (none, [.infoAttempt, .errUnexpected])

/-- The value `fetch_stock_data` hands its caller. -/
def fetch_stock_data (client : ClientOutcome) : Option Frame :=
  match fetch_stock_dataE client with
  | .ok (df, _) => df
  | .error _ => none

/-- The caller-visible value together with the log records. -/
def fetch_stock_dataFull (client : ClientOutcome) : Option Frame × List FetchLog :=
  match fetch_stock_dataE client with
  | .ok r => r
  | .error _ => (none, [])

/-! ## Decimal text encoding

CSV cells are decimal text.  Python's float repr round-trips exactly
(shortest-repr guarantee), so the model encodes each numeric cell's exact
rational value injectively and parses it back; `nan` is written as the
empty field and infinities by their float reprs, exactly as
`DataFrame.to_csv` / `read_csv` do. -/

/-- The decimal digit characters. -/
def digitChar (d : Nat) : Char :=
  match d with
  | 0 => '0' | 1 => '1' | 2 => '2' | 3 => '3' | 4 => '4'
  | 5 => '5' | 6 => '6' | 7 => '7' | 8 => '8' | _ => '9'

/-- Inverse of `digitChar` on the digit alphabet. -/
def charToDigit (ch : Char) : Option Nat :=
  if ch = '0' then some 0 else if ch = '1' then some 1
  else if ch = '2' then some 2 else if ch = '3' then some 3
  else if ch = '4' then some 4 else if ch = '5' then some 5
  else if ch = '6' then some 6 else if ch = '7' then some 7
  else if ch = '8' then some 8 else if ch = '9' then some 9
  else none

/-- Big-endian decimal digits of a natural number. -/
def natToChars (n : Nat) : List Char :=
  if _h : n < 10 then [digitChar n]
  else natToChars (n / 10) ++ [digitChar (n % 10)]
decreasing_by exact Nat.div_lt_self (by omega) (by omega)

/-- Accumulating decimal parser. -/
def parseNatAux (acc : Nat) : List Char → Option Nat
  | [] => some acc
  | ch :: rest =>
      match charToDigit ch with
      | some d => parseNatAux (acc * 10 + d) rest
      | none => none

/-- Parse a non-empty all-digit character list. -/
def parseNatChars (cs : List Char) : Option Nat :=
  if cs.isEmpty then none else parseNatAux 0 cs

/-- Signed decimal text of an integer. -/
def intToChars (i : Int) : List Char :=
  if i < 0 then '-' :: natToChars i.natAbs else natToChars i.natAbs

/-- Parse signed decimal text. -/
def parseIntChars (cs : List Char) : Option Int :=
  if cs.head? = some '-' then (parseNatChars cs.tail).map (fun n => -(n : Int))
  else (parseNatChars cs).map (fun n => (n : Int))

/-- Exact text of a rational: numerator, `/`, denominator. -/
def ratToChars (q : Rat) : List Char :=
  intToChars q.num ++ '/' :: natToChars q.den

/-- Parse the exact rational text. -/
def parseRatChars (cs : List Char) : Option Rat :=
  match cs.dropWhile (fun c => c ≠ '/') with
  | '/' :: denPart =>
      match parseIntChars (cs.takeWhile (fun c => c ≠ '/')), parseNatChars denPart with
      | some n, some d => if d = 0 then none else some ((n : Rat) / (d : Rat))
      | _, _ => none
  | _ => none

/-- One CSV field of a cell, as `to_csv` writes it: NaN becomes the empty
field, infinities their float reprs, numbers their exact decimal text,
object-dtype strings themselves. -/
def cellToStr : Cell → String
  | .num q => ⟨ratToChars q⟩
  | .nan => ""
  | .inf false => "inf"
  | .inf true => "-inf"
  | .txt s => s

/-- One CSV field read back by `read_csv`: empty means NaN, float reprs
of infinities parse to them, numeric text to a number, anything else
stays a string (the column becomes object dtype). -/
def parseCell (s : String) : Cell :=
  if s = "" then .nan
  else if s = "inf" then .inf false
  else if s = "-inf" then .inf true
  else
    match parseRatChars s.data with
    | some q => .num q
    | none => .txt s

/-- The `+00:00` offset suffix a tz-aware UTC index gets in ISO text. -/
def tzSuffixChars : List Char := ['+', '0', '0', ':', '0', '0']

/-- Index entry as `to_csv` writes it: the instant's text, with the UTC
offset suffix when the index is tz-aware.  (The model writes the epoch
milliseconds as the datetime text; the encoding is injective and parsed
back by `parseTs`, which is all the round-trip uses.) -/
def tsToStr (aware : Bool) (ms : Nat) : String :=
  ⟨natToChars ms ++ if aware then tzSuffixChars else []⟩

/-- Index entry as `read_csv(parse_dates=True)` reads it: the instant
plus whether the text carried an offset (tz-aware). -/
def parseTs (s : String) : Option (Nat × Bool) :=
  if 6 ≤ s.data.length ∧ s.data.drop (s.data.length - 6) = tzSuffixChars then
    (parseNatChars (s.data.take (s.data.length - 6))).map (fun n => (n, true))
  else
    (parseNatChars s.data).map (fun n => (n, false))

/-! ## Preprocessor (`data_processor.py`, `preprocess_data`) -/

/-- Step 1, timezone handling (the index is already a DatetimeIndex in
every pipeline input, so only the tz branches remain): a naive index is
localized to UTC (`tz_localize('UTC')`, instants kept); a non-UTC aware
index is converted (`tz_convert('UTC')`, instants kept, label changed);
a UTC index is untouched. -/
def step_tz (f : Frame) : Frame :=
  match f.tz with
  | .naive => { f with tz := .utc }
  | .other => { f with tz := .utc }
  | .utc => f

/-- `Series.ffill`: each NaN takes the last preceding non-NaN value (the
accumulator), staying NaN when there is none yet. -/
def ffillCol (last : Option Cell) : List Cell → List Cell
  | [] => []
  | c :: rest =>
      if c.isNan then last.getD Cell.nan :: ffillCol last rest
      else c :: ffillCol (some c) rest

/-- `Series.bfill`: forward fill of the reversed column. -/
def bfillCol (col : List Cell) : List Cell :=
  (ffillCol none col.reverse).reverse

/-- `df.isnull().sum().sum() > 0`. -/
def Frame.anyNan (f : Frame) : Bool :=
  f.cols.any (fun c => c.snd.any Cell.isNan)

/-- Keep exactly the entries of `xs` whose mask bit is true. -/
def maskFilter {α : Type} : List Bool → List α → List α
  | b :: bs, x :: xs => if b then x :: maskFilter bs xs else maskFilter bs xs
  | _, _ => []

/-- `df.dropna()` row mask: keep a position iff no column is NaN there. -/
def dropnaMask (f : Frame) : List Bool :=
  (List.range f.index.length).map
    (fun i => f.cols.all (fun c => !(c.snd.getD i Cell.nan).isNan))

/-- `df.dropna(inplace=True)`: drop every row still containing a NaN. -/
def Frame.dropna (f : Frame) : Frame :=
  let mask := dropnaMask f
  { index := maskFilter mask f.index,
    tz := f.tz,
    cols := f.cols.map (fun c => (c.fst, maskFilter mask c.snd)) }

/-- Apply one whole-frame column transformation to every column. -/
def Frame.mapCols (f : Frame) (g : List Cell → List Cell) : Frame :=
  { f with cols := f.cols.map (fun c => (c.fst, g c.snd)) }

/-- Step 2, missing values: if any cell is NaN, forward-fill then
backward-fill every column, and drop any row still containing NaN
afterwards; otherwise the frame is untouched. -/
def step_fill (f : Frame) : Frame :=
  if f.anyNan then
    let filled := (f.mapCols (ffillCol none)).mapCols bfillCol
    if filled.anyNan then filled.dropna else filled
  else f

/-- `pd.to_numeric` on one cell: numbers, NaN and infinities pass
through; an object-dtype string parses or raises `ValueError` (`none`). -/
def toNumericCell : Cell → Option Cell
  | .txt s => (parseRatChars s.data).map Cell.num
  | c => some c

/-- `pd.to_numeric` over a column: all cells convert, or the whole call
raises `ValueError` (`none`). -/
def toNumericList : List Cell → Option (List Cell)
  | [] => some []
  | c :: rest =>
      match toNumericCell c, toNumericList rest with
      | some c2, some rest2 => some (c2 :: rest2)
      | _, _ => none

/-- Step 3 body for one column: a column whose dtype is already numeric
(no object cells) is untouched; otherwise `pd.to_numeric` converts it,
and on `ValueError` the assignment `processed_df[col] = 0` replaces
every cell of the column with 0. -/
def coerceCol (col : List Cell) : List Cell :=
  if col.any Cell.isTxt then
    match toNumericList col with
    | some converted => converted
    | none => col.map (fun _ => Cell.num 0)
  else col

/-- The five columns step 3 coerces. -/
def ohlcvNames : List String := ["open", "high", "low", "close", "volume"]

/-- One iteration of step 3: coerce a single named column if present. -/
def coerceStep (g : Frame) (name : String) : Frame :=
  if g.hasCol name then g.setCol name (coerceCol (g.getCol name)) else g

/-- Step 3, type coercion over open/high/low/close/volume. -/
def step_coerce (f : Frame) : Frame :=
  ohlcvNames.foldl coerceStep f

/-- `pct_change` of one adjacent pair under float semantics:
`cur/prev - 1`, with division by zero giving a signed infinity (NaN when
both are zero) and NaN operands propagating NaN. -/
def pctCell : Cell → Cell → Cell
  | .num p, .num c =>
      if p = 0 then (if c = 0 then .nan else .inf (decide (c < 0)))
      else .num (c / p - 1)
  | .num p, .inf s => .inf (xor s (decide (p < 0)))
  | .inf _, .num _ => .num (-1)
  | .inf _, .inf _ => .nan
  | _, _ => .nan

/-- `Series.pct_change()`: NaN at position 0, then the pairwise change.
(The series was already forward-filled by the caller model, matching the
default `fill_method='pad'`.) -/
def pctChange : List Cell → List Cell
  | [] => []
  | c :: rest => Cell.nan :: List.zipWith pctCell (c :: rest) rest

/-- `Series.fillna(0)`. -/
def fillna0 (col : List Cell) : List Cell :=
  col.map (fun c => if c.isNan then Cell.num 0 else c)

/-- Step 4, derived feature: when a close column exists, assign
`daily_return = close.pct_change()` (pandas pad-fills the source series
first) and fill the leading NaN with 0. -/
def step_return (f : Frame) : Frame :=
  if f.hasCol "close" then
    f.setCol "daily_return" (fillna0 (pctChange (ffillCol none (f.getCol "close"))))
  else f

/-- Step 5, outlier flagging: computes and logs the extreme-return rows
but alters nothing — the identity on the frame. -/
def step_outlier (f : Frame) : Frame := f

/-- The heap of `preprocess_data` after `processed_df = df.copy()`
(pandas `copy` is deep by default, so the two are independent
objects). -/
structure PHeap where
  df : Frame
  processed : Frame
deriving DecidableEq, Repr

/-- `preprocess_data` at the heap level: the `None`/empty gate, then the
copy, then the five steps — each statement of the source assigns into
`processed_df` only, which the step sequence mirrors by updating the
`processed` component alone.  Returns the result and the final state of
the caller's `df` object. -/
def preprocessHeap (df : Frame) : Option Frame × Frame :=
  if df.isEmpty then (none, df)
  else
    let h0 : PHeap := { df := df, processed := df }
    let h1 : PHeap := { h0 with processed := step_tz h0.processed }
    let h2 : PHeap := { h1 with processed := step_fill h1.processed }
    let h3 : PHeap := { h2 with processed := step_coerce h2.processed }
    let h4 : PHeap := { h3 with processed := step_return h3.processed }
    let h5 : PHeap := { h4 with processed := step_outlier h4.processed }
    (some h5.processed, h5.df)

/-- `preprocess_data(df, ticker)`: `None` in, or an empty frame in,
yields `None`; otherwise the cleaned copy. -/
def preprocess_data (df : Option Frame) : Option Frame :=
  match df with
  | none => none
  | some f => (preprocessHeap f).fst

/-! ## Persistence (`data_processor.py`, save/load CSV) -/

/-- A CSV file as a list of records, each a list of fields (fields of
the pipeline's data contain no delimiter, so the comma-joined text and
the field lists are in bijection). -/
abbrev CsvFile := List (List String)

/-- `df.to_csv(filepath)`: a header (`index.name` then the column
names), then one record per row — the index entry's datetime text first,
then each column's field at that row. -/
def toCsv (f : Frame) : CsvFile :=
  ("timestamp" :: f.cols.map Prod.fst) ::
    (List.range f.index.length).map
      (fun i =>
        tsToStr (f.tz ≠ Tz.naive) (f.index.getD i 0) ::
          f.cols.map (fun c => cellToStr (c.snd.getD i Cell.nan)))

/-- `save_data_to_csv(df, filename)`: refuses a `None` or empty frame
(returns `False`, writes nothing — the slot keeps its previous file);
otherwise writes the CSV and returns `True`.  `prev` is the file already
at the target path, if any. -/
def save_data_to_csv (df : Option Frame) (prev : Option CsvFile) :
    Option CsvFile × Bool :=
  match df with
  | none => (prev, false)
  | some f => if f.isEmpty then (prev, false) else (some (toCsv f), true)

/-- The first field of each record parsed as a datetime, all or
nothing (one unparseable entry keeps the whole index as strings). -/
def parseTsList : List (List String) → Option (List (Nat × Bool))
  | [] => some []
  | r :: rest =>
      match parseTs (r.getD 0 ""), parseTsList rest with
      | some e, some es => some (e :: es)
      | _, _ => none

/-- Index reconstruction of `read_csv(..., index_col=0,
parse_dates=True)`: every first field must parse as a datetime, and all
entries must agree on tz-awareness, else the index stays object dtype
and the subsequent `.tz` access raises (caught, yielding `None`).
Returns the instants and whether the parsed index was tz-aware. -/
def parseIndex (records : List (List String)) : Option (List Nat × Bool) :=
  match parseTsList records with
  | none => none
  | some entries =>
      let aware := entries.all (fun e => e.snd)
      let naive := entries.all (fun e => !e.snd)
      if aware || naive then some (entries.map Prod.fst, aware && !records.isEmpty)
      else none

/-- `load_data_from_csv(filename)`: `None` when no file is at the path;
otherwise parse — header defines the column names, the first field of
each record the index (see `parseIndex`), the remaining fields the
columns (a short record reads as NaN, as `read_csv` pads).  A naive
parsed index is localized to UTC, an aware one converted to UTC. -/
def load_data_from_csv (file : Option CsvFile) : Option Frame :=
  match file with
  | none => none
  | some [] => none
  | some (header :: records) =>
      match parseIndex records with
      | none => none
      | some (instants, _aware) =>
          let colNames := header.drop 1
          some { index := instants,
                 tz := Tz.utc,
                 cols := colNames.enum.map
                   (fun jn => (jn.snd,
                     records.map (fun r => parseCell (r.getD (jn.fst + 1) "")))) }

/-! ## Concrete fixtures used by witnesses and counterexamples -/

/-- Callback invocation events among the events of one call. -/
def callbackEvents (evs : List HEvent) : List HEvent :=
  evs.filter (fun e => match e with | .callbackRun _ _ => true | _ => false)

/-- Handler state subscribed to MSFT with a registered callback. -/
def exSt : HState := ⟨[("MSFT", [])], ["MSFT"]⟩

/-- The spec's scenario trade message for MSFT (price 320.5, size 100). -/
def exTradeMsg : WsMsg :=
  ⟨some "T", some "MSFT", some 1690000000000, some (641/2 : Rat), some 100, some 4, some []⟩

/-- The row `handle_message` builds from `exTradeMsg`. -/
def exRow : TradeRow :=
  ⟨some 1690000000000, (641/2 : Rat), 100, some 4, []⟩

/-- A trade message for a subscribed symbol whose price field is absent,
so `float(message.get('p'))` raises during processing. -/
def exBadFieldMsg : WsMsg :=
  ⟨some "T", some "MSFT", some 5, none, some 100, some 4, some []⟩

/-- Aggregate with the later timestamp. -/
def exAggLate : Agg := ⟨2, 1, 1, 1, 1, 1, none, none⟩

/-- Aggregate with the earlier timestamp. -/
def exAggEarly : Agg := ⟨1, 1, 1, 1, 1, 1, none, none⟩

/-- One-row frame whose close value is missing: after forward and
backward fill the NaN persists, so `dropna` empties the frame. -/
def exNanFrame : Frame := ⟨[0], .utc, [("close", [Cell.nan])]⟩

/-- What `preprocess_data` returns on `exNanFrame`: a zero-row frame. -/
def exNanOut : Frame := ⟨[], .utc, [("close", []), ("daily_return", [])]⟩

/-- An empty frame satisfying the Tabular Dataset invariants vacuously. -/
def exEmptyFrame : Frame := ⟨[], .utc, [("close", [])]⟩

/-- A small invariant-satisfying dataset for the round-trip witness. -/
def exSaveFrame : Frame :=
  ⟨[1, 2], .utc, [("open", [Cell.num 1, Cell.nan]),
                  ("close", [Cell.num (3/2 : Rat), Cell.inf false])]⟩

/-- A small clean input for the preprocessing witnesses. -/
def exCleanFrame : Frame :=
  ⟨[10, 20], .utc, [("close", [Cell.num 4, Cell.num 6])]⟩

/-! ## Lemmas about the streaming handler state -/

theorem appendRow_pred_fst (tk tk' : String) (row : TradeRow) :
    ((fun b : String × List TradeRow => decide (b.1 = tk')) ∘
      (fun b => if b.1 = tk then (b.1, b.2 ++ [row]) else b)) =
      (fun b : String × List TradeRow => decide (b.1 = tk')) := by
  funext b
  by_cases hb : b.1 = tk <;> simp [hb]

theorem bufferOf_appendRow_self (st : HState) (tk : String) (row : TradeRow)
    (h : st.buffered tk = true) :
    (st.appendRow tk row).bufferOf tk = st.bufferOf tk ++ [row] := by
  obtain ⟨l, cbs⟩ := st
  have hsome : (l.find? (fun b => decide (b.1 = tk))).isSome := by
    rw [List.find?_isSome]
    simpa [HState.buffered, List.any_eq_true] using h
  obtain ⟨b, hb⟩ := Option.isSome_iff_exists.mp hsome
  have hbtk : b.1 = tk := by simpa using List.find?_some hb
  simp [HState.appendRow, HState.bufferOf, List.find?_map, appendRow_pred_fst, hb, hbtk]

theorem bufferOf_appendRow_ne (st : HState) (tk tk' : String) (row : TradeRow)
    (h : tk' ≠ tk) :
    (st.appendRow tk row).bufferOf tk' = st.bufferOf tk' := by
  obtain ⟨l, cbs⟩ := st
  simp only [HState.appendRow, HState.bufferOf, List.find?_map, appendRow_pred_fst]
  cases hfind : l.find? (fun b => decide (b.1 = tk')) with
  | none => simp
  | some b =>
      have hbtk : b.1 = tk' := by simpa using List.find?_some hfind
      have : ¬ b.1 = tk := fun hc => h ((hbtk.symm.trans hc))
      simp [this]

/-- C6: `handle_message` processes a message exactly when it is tagged as
a trade event (`ev == 'T'`) and its symbol is currently buffered; then
exactly one row built from the message's fields is appended to that
symbol's buffer (all other buffers unchanged) and a registered callback
for the symbol is invoked exactly once with that row; for a non-trade
event or an unbuffered symbol, the state is unchanged and no callback is
invoked. -/
theorem handle_message_routing (cb : String → TradeRow → Bool) (st : HState) (m : WsMsg) :
    (∀ tk row, m.ev = some "T" → m.sym = some tk → st.buffered tk = true →
      buildTradeRow m = some row →
        (handle_message cb st m).fst = st.appendRow tk row ∧
        (handle_message cb st m).fst.bufferOf tk = st.bufferOf tk ++ [row] ∧
        (∀ tk', tk' ≠ tk → (handle_message cb st m).fst.bufferOf tk' = st.bufferOf tk') ∧
        callbackEvents (handle_message cb st m).snd =
          (if tk ∈ st.callbacks then [HEvent.callbackRun tk row] else [])) ∧
    ((m.ev ≠ some "T" ∨ ∀ tk, m.sym = some tk → st.buffered tk = false) →
        (handle_message cb st m).fst = st ∧
        callbackEvents (handle_message cb st m).snd = []) := by
  constructor
  · intro tk row hev hsym hbuf hrow
    have hfst : (handle_message cb st m).fst = st.appendRow tk row := by
      by_cases hreg : tk ∈ st.callbacks
      · by_cases hfail : cb tk row = true <;>
          simp [handle_message, handle_message_try, hev, hsym, hbuf, hrow, hreg, hfail]
      · simp [handle_message, handle_message_try, hev, hsym, hbuf, hrow, hreg]
    refine ⟨hfst, hfst ▸ bufferOf_appendRow_self st tk row hbuf,
      fun tk' h' => hfst ▸ bufferOf_appendRow_ne st tk tk' row h', ?_⟩
    by_cases hreg : tk ∈ st.callbacks
    · by_cases hfail : cb tk row = true <;>
        simp [handle_message, handle_message_try, hev, hsym, hbuf, hrow, hreg, hfail,
          callbackEvents]
    · simp [handle_message, handle_message_try, hev, hsym, hbuf, hrow, hreg, callbackEvents]
  · intro hdrop
    rcases hdrop with hev | hsym
    · simp [handle_message, handle_message_try, hev, callbackEvents]
    · cases hm : m.sym with
      | none => simp [handle_message, handle_message_try, hm, callbackEvents]
      | some tk =>
          have := hsym tk hm
          by_cases hev : m.ev = some "T" <;>
            simp [handle_message, handle_message_try, hm, hev, this, callbackEvents]

/-- C6 witness: the spec's MSFT scenario — one row with price 320.5 and
size 100 appended, the callback invoked exactly once with it; and a
trade for an unsubscribed symbol leaves the state unchanged. -/
theorem handle_message_routing_witness :
    (handle_message (fun _ _ => false) exSt exTradeMsg).fst.bufferOf "MSFT" = [exRow] ∧
    callbackEvents (handle_message (fun _ _ => false) exSt exTradeMsg).snd =
      [HEvent.callbackRun "MSFT" exRow] ∧
    (handle_message (fun _ _ => false) exSt { exTradeMsg with sym := some "AAPL" }).fst = exSt := by
  refine ⟨?_, ?_, ?_⟩
  · have h := ((handle_message_routing (fun _ _ => false) exSt exTradeMsg).1
      "MSFT" exRow rfl rfl rfl rfl).2.1
    simpa [exSt, HState.bufferOf] using h
  · have h := ((handle_message_routing (fun _ _ => false) exSt exTradeMsg).1
      "MSFT" exRow rfl rfl rfl rfl).2.2.2
    simpa [exSt] using h
  · exact ((handle_message_routing (fun _ _ => false) exSt
      { exTradeMsg with sym := some "AAPL" }).2 (Or.inr (by intro tk h; cases h; rfl))).1

/-- C9: for a trade message of a subscribed symbol with a registered
callback, the row is appended before the callback runs (event order);
if the callback raises, the exception is caught and logged (the event
list ends with the log record and `handle_message` still returns a
value), and the appended row remains in the buffer — the state is the
appended state, not rolled back. -/
theorem handle_message_append_before_callback (cb : String → TradeRow → Bool)
    (st : HState) (m : WsMsg) (tk : String) (row : TradeRow)
    (hev : m.ev = some "T") (hsym : m.sym = some tk) (hbuf : st.buffered tk = true)
    (hrow : buildTradeRow m = some row) (hreg : tk ∈ st.callbacks) :
    (handle_message cb st m).snd =
      [HEvent.append tk row, HEvent.callbackRun tk row] ++
        (if cb tk row then [HEvent.logError] else []) ∧
    (handle_message cb st m).fst = st.appendRow tk row ∧
    (handle_message cb st m).fst.bufferOf tk = st.bufferOf tk ++ [row] := by
  have hfst : (handle_message cb st m).fst = st.appendRow tk row := by
    by_cases hfail : cb tk row = true <;>
      simp [handle_message, handle_message_try, hev, hsym, hbuf, hrow, hreg, hfail]
  refine ⟨?_, hfst, hfst ▸ bufferOf_appendRow_self st tk row hbuf⟩
  by_cases hfail : cb tk row = true <;>
    simp [handle_message, handle_message_try, hev, hsym, hbuf, hrow, hreg, hfail]

/-- C9 witness: the MSFT scenario with a callback that raises — the
append event comes first, the error is logged, and the row is in the
buffer afterwards. -/
theorem handle_message_append_before_callback_witness :
    (handle_message (fun _ _ => true) exSt exTradeMsg).snd =
      [HEvent.append "MSFT" exRow, HEvent.callbackRun "MSFT" exRow, HEvent.logError] ∧
    (handle_message (fun _ _ => true) exSt exTradeMsg).fst.bufferOf "MSFT" = [exRow] := by
  have h := handle_message_append_before_callback (fun _ _ => true) exSt exTradeMsg
    "MSFT" exRow rfl rfl rfl rfl (by simp [exSt])
  refine ⟨by simpa using h.1, ?_⟩
  have := h.2.2
  simpa [exSt, HState.bufferOf] using this

/-- C1 counterexample: the claim "a malformed message is logged and
skipped and never terminates the receive loop" is false for a message
that fails to decode — `json.loads` raises outside `handle_message`, the
`except` around the whole loop logs and re-raises, and the loop
terminates without processing the subsequent well-formed trade. -/
theorem start_streaming_decode_failure_terminates :
    start_streaming (fun _ _ => false) exSt [none, some exTradeMsg] =
      Except.error StreamErr.decodeError := rfl

/-- C1 amended: the loop always continues past any payload that decodes
(in particular, a trade message whose processing fails — here a missing
price field — is logged and dropped with the state unchanged), but a
payload that fails to decode terminates the loop with a decode error. -/
theorem start_streaming_amended (cb : String → TradeRow → Bool) (st : HState)
    (m : WsMsg) (rest : List RawMsg) :
    (start_streaming cb st (some m :: rest) =
      start_streaming cb (handle_message cb st m).fst rest) ∧
    (∀ tk, m.ev = some "T" → m.sym = some tk → st.buffered tk = true →
      buildTradeRow m = none →
      handle_message cb st m = (st, [HEvent.logError])) ∧
    (start_streaming cb st (none :: rest) = Except.error StreamErr.decodeError) := by
  refine ⟨rfl, ?_, rfl⟩
  intro tk hev hsym hbuf hrow
  simp [handle_message, handle_message_try, hev, hsym, hbuf, hrow]

/-- C1 amended witness: a trade with a missing price field is dropped
with the loop state unchanged, and the loop goes on to process the rest. -/
theorem start_streaming_amended_witness :
    start_streaming (fun _ _ => false) exSt [some exBadFieldMsg, some exTradeMsg] =
      start_streaming (fun _ _ => false)
        (handle_message (fun _ _ => false) exSt exBadFieldMsg).fst [some exTradeMsg] ∧
    handle_message (fun _ _ => false) exSt exBadFieldMsg = (exSt, [HEvent.logError]) := by
  refine ⟨(start_streaming_amended (fun _ _ => false) exSt exBadFieldMsg
    [some exTradeMsg]).1, ?_⟩
  exact (start_streaming_amended (fun _ _ => false) exSt exBadFieldMsg
    [some exTradeMsg]).2.1 "MSFT" rfl rfl rfl rfl

/-! ## Fetcher theorems -/

/-- C3 counterexample: when the client delivers records out of order,
`fetch_stock_data` returns them in that order — the output index `[2, 1]`
is not strictly ascending, so the claim "sorted strictly ascending for
records in whatever order" is false. -/
theorem fetch_stock_data_not_sorting :
    (fetch_stock_data (.ok [exAggLate, exAggEarly])).map Frame.index = some [2, 1] ∧
    ¬ List.Chain' (· < ·) [2, 1] := by
  exact ⟨rfl, by norm_num [List.chain'_cons]⟩

/-- C3 amended: the fetcher preserves the client's record order exactly
(it performs no sorting or deduplication), so for a non-empty drained
sequence the output index is strictly ascending with no duplicates
exactly when the client's sequence is — which the request asks for via
`sort="asc"` but the fetcher does not enforce. -/
theorem fetch_stock_data_order (aggs : List Agg) (hne : aggs ≠ [])
    (hsorted : List.Chain' (· < ·) (aggs.map (fun a => a.timestamp))) :
    ∃ df, fetch_stock_data (.ok aggs) = some df ∧
      df.index = aggs.map (fun a => a.timestamp) ∧
      List.Chain' (· < ·) df.index ∧ df.index.Nodup := by
  refine ⟨aggsToFrame aggs, ?_, rfl, hsorted, ?_⟩
  · have h1 : aggs.isEmpty = false := by simpa using hne
    have h2 : (aggsToFrame aggs).index.isEmpty = false := by
      simp [aggsToFrame, List.isEmpty_iff, hne]
    simp [fetch_stock_data, fetch_stock_dataE, clientCall, fetch_body, h1, h2]
  · have hp : List.Pairwise (· < ·) (aggsToFrame aggs).index :=
      (List.chain'_iff_pairwise).mp hsorted
    exact hp.imp Nat.ne_of_lt

/-- C3 amended witness: an in-order two-record drain yields the index
`[1, 2]`, strictly ascending and duplicate-free. -/
theorem fetch_stock_data_order_witness :
    [exAggEarly, exAggLate] ≠ [] ∧
    ∃ df, fetch_stock_data (.ok [exAggEarly, exAggLate]) = some df ∧
      df.index = [1, 2] ∧ List.Chain' (· < ·) df.index ∧ df.index.Nodup := by
  refine ⟨by decide, ?_⟩
  obtain ⟨df, h1, h2, h3, h4⟩ := fetch_stock_data_order [exAggEarly, exAggLate]
    (by decide) (by norm_num [List.chain'_cons, exAggEarly, exAggLate])
  exact ⟨df, h1, by simpa [exAggEarly, exAggLate] using h2, h3, h4⟩

/-- C7 counterexample: an empty drained sequence and a transport failure
produce the very same caller-visible value (`None`), so the "NotFound"
outcome is not distinguishable by the caller from a transport failure. -/
theorem fetch_stock_data_notfound_indistinct :
    fetch_stock_data (.ok []) = fetch_stock_data .raiseConnectionError ∧
    fetch_stock_data (.ok []) = none := ⟨rfl, rfl⟩

/-- C7 amended: an empty drain returns the absent marker with a
"no data" warning log, while transport failures return the same absent
marker with error logs — the outcomes differ only in the log records,
never in the value the caller receives. -/
theorem fetch_stock_data_notfound_logs_only :
    fetch_stock_dataFull (.ok []) = (none, [.infoAttempt, .warnNoData]) ∧
    fetch_stock_dataFull .raiseConnectionError = (none, [.infoAttempt, .errConnection]) ∧
    fetch_stock_dataFull (.raiseBadResponse 401 none) =
      (none, [.infoAttempt, .errBadResponse]) ∧
    fetch_stock_dataFull .raiseOther = (none, [.infoAttempt, .errUnexpected]) :=
  ⟨rfl, rfl, rfl, rfl⟩

/-- C8: `fetch_stock_data` is total at its interface — whatever the
client capability does, including raising any exception, the function
returns a value (`.ok`): `except BadResponse`, `except ConnectionError`
and the final catch-all `except Exception` cover every raise, each
returning the absent marker instead of propagating. -/
theorem fetch_stock_data_total (client : ClientOutcome) :
    ∃ r, fetch_stock_dataE client = .ok r := by
  cases client with
  | ok aggs => exact ⟨fetch_body aggs, rfl⟩
  | raiseBadResponse st tx => exact ⟨_, rfl⟩
  | raiseConnectionError => exact ⟨_, rfl⟩
  | raiseOther => exact ⟨_, rfl⟩

/-! ## Preprocessor frame-effect theorem -/

/-- C10: `preprocess_data` never mutates its input — the `df` object the
caller passed holds exactly its original contents after the call.  Every
statement of the source writes to `processed_df` (a deep `df.copy()`),
which the heap embedding mirrors: only the `processed` component is ever
reassigned, so the `df` component is returned untouched. -/
theorem preprocess_data_no_mutation (df : Frame) :
    (preprocessHeap df).snd = df := by
  unfold preprocessHeap
  split <;> rfl

/-! ## Round-trip lemmas for the decimal text encoding -/

theorem charToDigit_digitChar (d : Nat) (h : d < 10) :
    charToDigit (digitChar d) = some d := by
  interval_cases d <;> rfl

theorem natToChars_digits (n : Nat) :
    ∀ c ∈ natToChars n, ∃ d, d < 10 ∧ c = digitChar d := by
  induction n using Nat.strong_induction_on with
  | _ n ih =>
      intro c hc
      by_cases h : n < 10
      · rw [natToChars, dif_pos h] at hc
        simp only [List.mem_singleton] at hc
        exact ⟨n, h, hc⟩
      · rw [natToChars, dif_neg h] at hc
        rcases List.mem_append.mp hc with hc | hc
        · exact ih (n / 10) (Nat.div_lt_self (by omega) (by omega)) c hc
        · exact ⟨n % 10, Nat.mod_lt n (by omega), by simpa using hc⟩

theorem natToChars_ne_nil (n : Nat) : natToChars n ≠ [] := by
  by_cases h : n < 10
  · rw [natToChars, dif_pos h]; simp
  · rw [natToChars, dif_neg h]; simp

theorem parseNatAux_append (acc : Nat) (l1 l2 : List Char) :
    parseNatAux acc (l1 ++ l2) =
      (parseNatAux acc l1).bind (fun a => parseNatAux a l2) := by
  induction l1 generalizing acc with
  | nil => rfl
  | cons ch rest ih =>
      simp only [List.cons_append, parseNatAux]
      cases charToDigit ch with
      | none => rfl
      | some d => exact ih _

theorem parseNatAux_natToChars (n : Nat) :
    ∀ acc, parseNatAux acc (natToChars n) =
      some (acc * 10 ^ (natToChars n).length + n) := by
  induction n using Nat.strong_induction_on with
  | _ n ih =>
      intro acc
      by_cases h : n < 10
      · rw [natToChars, dif_pos h]
        simp [parseNatAux, charToDigit_digitChar n h]
      · have hd : n / 10 < n := Nat.div_lt_self (by omega) (by omega)
        rw [natToChars, dif_neg h, parseNatAux_append, ih (n / 10) hd acc]
        simp only [Option.some_bind, parseNatAux,
          charToDigit_digitChar (n % 10) (Nat.mod_lt n (by omega))]
        congr 1
        have hmod := Nat.div_add_mod n 10
        simp only [List.length_append, List.length_cons, List.length_nil]
        ring_nf
        omega

theorem parseNatChars_natToChars (n : Nat) :
    parseNatChars (natToChars n) = some n := by
  have h := parseNatAux_natToChars n 0
  simp only [Nat.zero_mul, Nat.zero_add] at h
  rw [parseNatChars, if_neg (by simp [List.isEmpty_iff, natToChars_ne_nil n]), h]

theorem natToChars_head_digit (n : Nat) :
    ∀ c, (natToChars n).head? = some c → ∃ d, d < 10 ∧ c = digitChar d := by
  intro c hc
  apply natToChars_digits n
  cases h : natToChars n with
  | nil => exact absurd h (natToChars_ne_nil n)
  | cons a t => rw [h] at hc; simp at hc; simp [h, hc]

theorem digitChar_ne_special (d : Nat) (h : d < 10) :
    digitChar d ≠ '-' ∧ digitChar d ≠ '/' ∧ digitChar d ≠ '+' := by
  interval_cases d <;> exact ⟨by decide, by decide, by decide⟩

theorem parseIntChars_intToChars (i : Int) :
    parseIntChars (intToChars i) = some i := by
  by_cases h : i < 0
  · rw [intToChars, if_pos h, parseIntChars, if_pos (by simp), List.tail_cons,
      parseNatChars_natToChars]
    show some (-(i.natAbs : Int)) = some i
    congr 1
    omega
  · have hhead : ¬ (natToChars i.natAbs).head? = some '-' := by
      intro hc
      obtain ⟨d, hd, hdc⟩ := natToChars_head_digit i.natAbs '-' hc
      exact (digitChar_ne_special d hd).1 hdc.symm
    rw [intToChars, if_neg h, parseIntChars, if_neg hhead, parseNatChars_natToChars]
    simp
    omega

theorem takeWhile_append_stop {p : Char → Bool} (l r : List Char) (x : Char)
    (hl : ∀ c ∈ l, p c = true) (hx : p x = false) :
    (l ++ x :: r).takeWhile p = l ∧ (l ++ x :: r).dropWhile p = x :: r := by
  induction l with
  | nil => simp [List.takeWhile_cons, List.dropWhile_cons, hx]
  | cons a t ih =>
      have ha : p a = true := hl a (List.mem_cons_self a t)
      have ht : ∀ c ∈ t, p c = true := fun c hc => hl c (List.mem_cons_of_mem a hc)
      obtain ⟨h1, h2⟩ := ih ht
      simp [List.takeWhile_cons, List.dropWhile_cons, ha, h1, h2]

theorem intToChars_no_slash (i : Int) : ∀ c ∈ intToChars i, c ≠ '/' := by
  intro c hc
  rw [intToChars] at hc
  by_cases h : i < 0
  · rw [if_pos h] at hc
    rcases List.mem_cons.mp hc with hc | hc
    · subst hc; decide
    · obtain ⟨d, hd, hdc⟩ := natToChars_digits i.natAbs c hc
      exact hdc ▸ (digitChar_ne_special d hd).2.1
  · rw [if_neg h] at hc
    obtain ⟨d, hd, hdc⟩ := natToChars_digits i.natAbs c hc
    exact hdc ▸ (digitChar_ne_special d hd).2.1

theorem parseRatChars_ratToChars (q : Rat) :
    parseRatChars (ratToChars q) = some q := by
  have hl : ∀ c ∈ intToChars q.num, (fun c => decide (c ≠ '/')) c = true := by
    intro c hc
    simpa using intToChars_no_slash q.num c hc
  have hx : (fun c => decide (c ≠ '/')) '/' = false := by decide
  obtain ⟨h1, h2⟩ := takeWhile_append_stop (intToChars q.num) (natToChars q.den) '/' hl hx
  simp only [parseRatChars, ratToChars, h1, h2, parseIntChars_intToChars,
    parseNatChars_natToChars]
  have hden : ¬ q.den = 0 := Nat.pos_iff_ne_zero.mp q.pos
  simp [hden, Rat.num_div_den]

theorem ratToChars_has_slash (q : Rat) : '/' ∈ ratToChars q := by
  rw [ratToChars]
  exact List.mem_append_right _ (List.mem_cons_self _ _)

theorem parseCell_cellToStr (x : Cell) (h : x.isTxt = false) :
    parseCell (cellToStr x) = x := by
  cases x with
  | nan => rfl
  | inf b => cases b <;> rfl
  | txt s => simp [Cell.isTxt] at h
  | num q =>
      have hs : '/' ∈ (cellToStr (Cell.num q)).data := by
        simpa [cellToStr] using ratToChars_has_slash q
      have h1 : cellToStr (Cell.num q) ≠ "" := by
        intro he; rw [he] at hs; exact absurd hs (by decide)
      have h2 : cellToStr (Cell.num q) ≠ "inf" := by
        intro he; rw [he] at hs; exact absurd hs (by decide)
      have h3 : cellToStr (Cell.num q) ≠ "-inf" := by
        intro he; rw [he] at hs; exact absurd hs (by decide)
      rw [parseCell, if_neg h1, if_neg h2, if_neg h3]
      have hd : (cellToStr (Cell.num q)).data = ratToChars q := rfl
      rw [hd, parseRatChars_ratToChars]

theorem parseTs_tsToStr (ms : Nat) : parseTs (tsToStr true ms) = some (ms, true) := by
  have hdata : (tsToStr true ms).data = natToChars ms ++ tzSuffixChars := rfl
  have hlen : (natToChars ms ++ tzSuffixChars).length = (natToChars ms).length + 6 := by
    simp [tzSuffixChars]
  have hsub : (natToChars ms ++ tzSuffixChars).length - 6 = (natToChars ms).length := by
    omega
  have hdrop : (natToChars ms ++ tzSuffixChars).drop
      ((natToChars ms ++ tzSuffixChars).length - 6) = tzSuffixChars := by
    rw [hsub]; exact List.drop_left _ _
  have htake : (natToChars ms ++ tzSuffixChars).take
      ((natToChars ms ++ tzSuffixChars).length - 6) = natToChars ms := by
    rw [hsub]; exact List.take_left _ _
  rw [parseTs]
  simp only [hdata]
  rw [if_pos ⟨by omega, hdrop⟩, htake, parseNatChars_natToChars]
  rfl

/-! ## List helper lemmas for the persistence round trip -/

theorem parseTsList_eq_map {α : Type} (l : List α) (f : α → List String)
    (g : α → Nat × Bool) (H : ∀ a ∈ l, parseTs ((f a).getD 0 "") = some (g a)) :
    parseTsList (l.map f) = some (l.map g) := by
  induction l with
  | nil => rfl
  | cons a t ih =>
      have ha := H a (List.mem_cons_self a t)
      have ht := ih (fun x hx => H x (List.mem_cons_of_mem a hx))
      simp only [List.getD] at ha
      simp only [List.map_cons, parseTsList, List.getD, ht, ha]

theorem range_map_getD {α : Type} (l : List α) (d : α) :
    (List.range l.length).map (fun i => l[i]?.getD d) = l := by
  induction l with
  | nil => rfl
  | cons a t ih =>
      rw [List.length_cons, List.range_succ_eq_map]
      simp only [List.map_cons, List.map_map, Function.comp_def, List.getElem?_cons_zero,
        Option.getD_some, List.getElem?_cons_succ]
      rw [ih]

/-- C2 amended: for every non-empty dataset satisfying the invariants
(UTC tz, one cell per row per column, numeric/NaN/infinite cells),
`save` writes the CSV and returns true, and `load` of the written file
returns a frame equal to the input, instants, timezone, column names,
order and cell values all included. -/
theorem save_load_round_trip (D : Frame) (prev : Option CsvFile)
    (hwf : D.Wf) (htz : D.tz = Tz.utc) (hne : D.isEmpty = false)
    (hnotxt : ∀ c ∈ D.cols, ∀ x ∈ c.snd, x.isTxt = false) :
    (save_data_to_csv (some D) prev).snd = true ∧
    load_data_from_csv (save_data_to_csv (some D) prev).fst = some D := by
  obtain ⟨idx, tzD, colsD⟩ := D
  subst htz
  simp only [Frame.isEmpty, Bool.or_eq_false_iff, List.isEmpty_eq_false] at hne
  obtain ⟨hnidx, hncols⟩ := hne
  have hsave : save_data_to_csv (some ⟨idx, Tz.utc, colsD⟩) prev =
      (some (toCsv ⟨idx, Tz.utc, colsD⟩), true) := by
    simp [save_data_to_csv, Frame.isEmpty, hnidx, hncols, List.isEmpty_eq_false]
  refine ⟨by rw [hsave], ?_⟩
  rw [hsave]
  have hwf' : ∀ c ∈ colsD, c.snd.length = idx.length := hwf
  set rowFn : Nat → List String := fun i =>
    tsToStr true (idx.getD i 0) ::
      colsD.map (fun c => cellToStr (c.snd.getD i Cell.nan)) with hrowFn
  have hcsv : toCsv ⟨idx, Tz.utc, colsD⟩ =
      ("timestamp" :: colsD.map Prod.fst) :: (List.range idx.length).map rowFn := rfl
  rw [hcsv]
  have hTs : ∀ i ∈ List.range idx.length,
      parseTs ((rowFn i).getD 0 "") = some ((fun i => (idx.getD i 0, true)) i) := by
    intro i _
    show parseTs (tsToStr true (idx.getD i 0)) = _
    exact parseTs_tsToStr _
  have hlist : parseTsList ((List.range idx.length).map rowFn) =
      some ((List.range idx.length).map (fun i => (idx.getD i 0, true))) :=
    parseTsList_eq_map _ _ _ hTs
  have hfst : List.map (Prod.fst ∘ fun i => (idx[i]?.getD 0, true))
      (List.range idx.length) = idx := by
    have h0 : ∀ i ∈ List.range idx.length,
        (Prod.fst ∘ fun i => (idx[i]?.getD 0, true)) i = idx[i]?.getD 0 := fun i _ => rfl
    rw [List.map_congr_left h0]
    exact range_map_getD idx 0
  have hpidx : parseIndex ((List.range idx.length).map rowFn) = some (idx, true) := by
    rw [parseIndex, hlist]
    have hall : ((List.range idx.length).map (fun i => (idx.getD i 0, true))).all
        (fun e => e.snd) = true := by
      simp [List.all_eq_true]
    have hnemp : ((List.range idx.length).map rowFn).isEmpty = false := by
      rw [List.isEmpty_eq_false]
      simp only [ne_eq, List.map_eq_nil_iff, List.range_eq_nil]
      exact fun hc => hnidx (List.length_eq_zero.mp hc)
    simp [hall, hnemp, hfst]
  show load_data_from_csv (some (("timestamp" :: colsD.map Prod.fst) ::
      (List.range idx.length).map rowFn)) = _
  rw [load_data_from_csv, hpidx]
  simp only [Option.some.injEq, List.drop_succ_cons, List.drop_zero]
  show Frame.mk idx Tz.utc _ = Frame.mk idx Tz.utc colsD
  congr 1
  apply List.ext_getElem
  · simp [List.enum_length]
  · intro j h1 h2
    have hj : j < colsD.length := h2
    rw [List.getElem_map, List.getElem_enum, List.getElem_map]
    have hlenj : colsD[j].snd.length = idx.length :=
      hwf' colsD[j] (List.getElem_mem hj)
    have hvals : ((List.range idx.length).map rowFn).map
        (fun r => parseCell (r.getD (j + 1) "")) = colsD[j].snd := by
      rw [List.map_map]
      have hcong : ∀ i ∈ List.range idx.length,
          ((fun r => parseCell (r.getD (j + 1) "")) ∘ rowFn) i =
            (fun i => colsD[j].snd[i]?.getD Cell.nan) i := by
        intro i hi
        have hin : i < idx.length := List.mem_range.mp hi
        show parseCell ((rowFn i).getD (j + 1) "") = colsD[j].snd[i]?.getD Cell.nan
        have hstep : (rowFn i).getD (j + 1) "" =
            (colsD.map (fun c => cellToStr (c.snd.getD i Cell.nan))).getD j "" := rfl
        have hjm : j < (colsD.map (fun c => cellToStr (c.snd.getD i Cell.nan))).length := by
          simpa using hj
        have hilt : i < colsD[j].snd.length := by omega
        rw [hstep, List.getD_eq_getElem _ _ hjm, List.getElem_map,
          List.getD_eq_getElem _ _ hilt, List.getElem?_eq_getElem hilt,
          Option.getD_some]
        refine parseCell_cellToStr _ ?_
        exact hnotxt colsD[j] (List.getElem_mem hj) _ (List.getElem_mem hilt)
      rw [List.map_congr_left hcong]
      rw [← hlenj]
      exact range_map_getD _ _
    rw [hvals]

/-- C2 witness: the round trip holds at a concrete two-row dataset with
a NaN and an infinite cell. -/
theorem save_load_round_trip_witness :
    (save_data_to_csv (some exSaveFrame) none).snd = true ∧
    load_data_from_csv (save_data_to_csv (some exSaveFrame) none).fst = some exSaveFrame :=
  save_load_round_trip exSaveFrame none (by decide) rfl (by decide) (by decide)

/-- C2 counterexample: an empty dataset satisfies the Tabular Dataset
invariants vacuously, but `save` refuses it (returns false, writes no
file) and `load` then returns the absent marker, not a dataset equal to
the input — so the round trip fails for empty datasets. -/
theorem save_load_empty_no_round_trip :
    save_data_to_csv (some exEmptyFrame) none = (none, false) ∧
    load_data_from_csv (save_data_to_csv (some exEmptyFrame) none).fst = none :=
  ⟨rfl, rfl⟩

/-! ## Frame column lemmas -/

theorem setCol_pred_fst (n n' : String) (v : List Cell) :
    ((fun c : String × List Cell => decide (c.fst = n')) ∘
      (fun c => if c.fst = n then (n, v) else c)) =
      (fun c : String × List Cell => decide (c.fst = n')) := by
  funext c
  by_cases hc : c.fst = n
  · simp [hc]
  · simp [hc]

theorem setCol_eq_of_hasCol (f : Frame) (n : String) (v : List Cell)
    (h : f.hasCol n = true) :
    f.setCol n v =
      { f with cols := f.cols.map (fun c => if c.fst = n then (n, v) else c) } := by
  rw [Frame.setCol, if_pos h]

theorem setCol_eq_of_not_hasCol (f : Frame) (n : String) (v : List Cell)
    (h : f.hasCol n = false) :
    f.setCol n v = { f with cols := f.cols ++ [(n, v)] } := by
  rw [Frame.setCol, if_neg]
  simp [h]

theorem find?_eq_none_of_not_hasCol (f : Frame) (n : String) (h : f.hasCol n = false) :
    f.cols.find? (fun c => decide (c.fst = n)) = none := by
  rw [List.find?_eq_none]
  intro x hx
  simp only [Frame.hasCol, List.any_eq_false, decide_eq_true_eq] at h
  simpa using h x hx

theorem getCol_of_not_hasCol (f : Frame) (n : String) (h : f.hasCol n = false) :
    f.getCol n = [] := by
  simp [Frame.getCol, find?_eq_none_of_not_hasCol f n h]

theorem getCol_setCol_self (f : Frame) (n : String) (v : List Cell) :
    (f.setCol n v).getCol n = v := by
  by_cases h : f.hasCol n = true
  · have hsome : (f.cols.find? (fun c => decide (c.fst = n))).isSome := by
      rw [List.find?_isSome]
      simpa [Frame.hasCol, List.any_eq_true] using h
    obtain ⟨b, hb⟩ := Option.isSome_iff_exists.mp hsome
    have hbn : b.fst = n := by simpa using List.find?_some hb
    rw [setCol_eq_of_hasCol f n v h]
    simp [Frame.getCol, List.find?_map, setCol_pred_fst, hb, hbn]
  · have h' : f.hasCol n = false := by simpa using h
    rw [setCol_eq_of_not_hasCol f n v h']
    simp [Frame.getCol, List.find?_append, find?_eq_none_of_not_hasCol f n h']

theorem getCol_setCol_ne (f : Frame) (n n' : String) (v : List Cell) (h : n' ≠ n) :
    (f.setCol n v).getCol n' = f.getCol n' := by
  have hnn : ¬ n = n' := fun hc => h hc.symm
  by_cases hc : f.hasCol n = true
  · rw [setCol_eq_of_hasCol f n v hc]
    simp only [Frame.getCol, List.find?_map, setCol_pred_fst]
    cases hfind : f.cols.find? (fun c => decide (c.fst = n')) with
    | none => simp
    | some b =>
        have hbn : b.fst = n' := by simpa using List.find?_some hfind
        have hb2 : ¬ b.fst = n := fun hcc => h (hbn.symm.trans hcc)
        simp [hb2]
  · have h' : f.hasCol n = false := by simpa using hc
    rw [setCol_eq_of_not_hasCol f n v h']
    simp only [Frame.getCol, List.find?_append]
    cases hfind : f.cols.find? (fun c => decide (c.fst = n')) with
    | none => simp [List.find?_cons, hnn]
    | some b => simp

theorem hasCol_setCol_self (f : Frame) (n : String) (v : List Cell) :
    (f.setCol n v).hasCol n = true := by
  by_cases h : f.hasCol n = true
  · rw [setCol_eq_of_hasCol f n v h]
    show (List.map (fun c => if c.fst = n then (n, v) else c) f.cols).any
      (fun c => decide (c.fst = n)) = true
    rw [List.any_map, setCol_pred_fst]
    exact h
  · have h' : f.hasCol n = false := by simpa using h
    rw [setCol_eq_of_not_hasCol f n v h']
    show (f.cols ++ [(n, v)]).any (fun c => decide (c.fst = n)) = true
    simp [List.any_append]

theorem hasCol_setCol_ne (f : Frame) (n n' : String) (v : List Cell) (h : n' ≠ n) :
    (f.setCol n v).hasCol n' = f.hasCol n' := by
  have hnn : ¬ n = n' := fun hc => h hc.symm
  by_cases hc : f.hasCol n = true
  · rw [setCol_eq_of_hasCol f n v hc]
    show (List.map (fun c => if c.fst = n then (n, v) else c) f.cols).any
      (fun c => decide (c.fst = n')) = f.hasCol n'
    rw [List.any_map, setCol_pred_fst]
    rfl
  · have h' : f.hasCol n = false := by simpa using hc
    rw [setCol_eq_of_not_hasCol f n v h']
    show (f.cols ++ [(n, v)]).any (fun c => decide (c.fst = n')) = f.hasCol n'
    simp [List.any_append, Frame.hasCol, hnn]

theorem list_setCol_self (l : List (String × List Cell)) (n : String) (v : List Cell)
    (hnd : (l.map Prod.fst).Nodup)
    (hfind : l.find? (fun c => decide (c.fst = n)) = some (n, v)) :
    l.map (fun c => if c.fst = n then (n, v) else c) = l := by
  induction l with
  | nil => simp at hfind
  | cons c0 rest ih =>
      by_cases h0 : c0.fst = n
      · rw [List.find?_cons_of_pos _ (by simpa using h0)] at hfind
        have hc0 : c0 = (n, v) := Option.some.inj hfind
        have hrest : ∀ c ∈ rest, c.fst ≠ n := by
          intro c hcmem hcn
          have : c0.fst ∈ rest.map Prod.fst := by
            rw [h0, ← hcn]
            exact List.mem_map.mpr ⟨c, hcmem, rfl⟩
          exact (List.nodup_cons.mp (by simpa using hnd)).1 this
        have htail : List.map (fun c => if c.fst = n then (n, v) else c) rest = rest := by
          conv_rhs => rw [← List.map_id rest]
          apply List.map_congr_left
          intro c hcmem
          simp [if_neg (hrest c hcmem)]
        rw [List.map_cons, if_pos h0, htail, ← hc0]
      · rw [List.find?_cons_of_neg _ (by simpa using h0)] at hfind
        rw [List.map_cons, if_neg h0]
        congr 1
        exact ih (by simpa using (List.nodup_cons.mp (by simpa using hnd)).2) hfind

theorem setCol_self (f : Frame) (n : String) (h : f.hasCol n = true)
    (hnd : (f.cols.map Prod.fst).Nodup) :
    f.setCol n (f.getCol n) = f := by
  have hsome : (f.cols.find? (fun c => decide (c.fst = n))).isSome := by
    rw [List.find?_isSome]
    simpa [Frame.hasCol, List.any_eq_true] using h
  obtain ⟨b, hb⟩ := Option.isSome_iff_exists.mp hsome
  obtain ⟨a, s⟩ := b
  have hbn : a = n := by simpa using List.find?_some hb
  subst hbn
  have hget : f.getCol a = s := by simp [Frame.getCol, hb]
  rw [setCol_eq_of_hasCol f a _ h, hget]
  have := list_setCol_self f.cols a s hnd hb
  cases f
  simpa using this

/-! ## Step lemmas for the preprocessor -/

theorem tz_setCol (f : Frame) (n : String) (v : List Cell) :
    (f.setCol n v).tz = f.tz := by
  rw [Frame.setCol]
  split <;> rfl

theorem tz_step_tz (f : Frame) : (step_tz f).tz = Tz.utc := by
  obtain ⟨i, t, c⟩ := f
  cases t <;> rfl

theorem step_tz_of_utc (f : Frame) (h : f.tz = Tz.utc) : step_tz f = f := by
  obtain ⟨i, t, c⟩ := f
  simp only [Frame.tz] at h
  subst h
  rfl

theorem tz_step_fill (f : Frame) : (step_fill f).tz = f.tz := by
  rw [step_fill]
  split
  · dsimp only
    split <;> rfl
  · rfl

theorem step_fill_of_no_nan (f : Frame) (h : f.anyNan = false) : step_fill f = f := by
  rw [step_fill, if_neg]
  simp [h]

theorem tz_coerceStep (g : Frame) (n : String) : (coerceStep g n).tz = g.tz := by
  rw [coerceStep]
  split
  · exact tz_setCol g n _
  · rfl

theorem tz_foldl_coerceStep (l : List String) (g : Frame) :
    (l.foldl coerceStep g).tz = g.tz := by
  induction l generalizing g with
  | nil => rfl
  | cons n rest ih => rw [List.foldl_cons, ih, tz_coerceStep]

theorem tz_step_coerce (f : Frame) : (step_coerce f).tz = f.tz :=
  tz_foldl_coerceStep ohlcvNames f

theorem tz_step_return (f : Frame) : (step_return f).tz = f.tz := by
  rw [step_return]
  split
  · exact tz_setCol f _ _
  · rfl

theorem coerceCol_of_no_txt (col : List Cell) (h : col.any Cell.isTxt = false) :
    coerceCol col = col := by
  rw [coerceCol, if_neg]
  simp [h]

theorem toNumericList_no_txt (col col' : List Cell) (h : toNumericList col = some col') :
    col'.any Cell.isTxt = false := by
  induction col generalizing col' with
  | nil =>
      rw [toNumericList] at h
      cases h
      rfl
  | cons c rest ih =>
      rw [toNumericList] at h
      cases hc : toNumericCell c with
      | none => rw [hc] at h; cases h
      | some c2 =>
          cases hr : toNumericList rest with
          | none => rw [hc, hr] at h; cases h
          | some rest2 =>
              rw [hc, hr] at h
              cases h
              have hrest := ih rest2 hr
              have hc2 : c2.isTxt = false := by
                cases c with
                | txt s =>
                    rw [toNumericCell] at hc
                    cases hp : parseRatChars s.data with
                    | none => rw [hp] at hc; cases hc
                    | some q => rw [hp] at hc; cases hc; rfl
                | num q => cases hc; rfl
                | nan => cases hc; rfl
                | inf b => cases hc; rfl
              simp [List.any_cons, hc2, hrest]

theorem coerceCol_no_txt (col : List Cell) :
    (coerceCol col).any Cell.isTxt = false := by
  rw [coerceCol]
  split
  · cases h : toNumericList col with
    | none =>
        rw [List.any_eq_false]
        intro x hx
        obtain ⟨y, _, rfl⟩ := List.mem_map.mp hx
        decide
    | some converted => exact toNumericList_no_txt col converted h
  · next h => simpa using h

theorem getCol_coerceStep_ne (g : Frame) (n n' : String) (h : n' ≠ n) :
    (coerceStep g n).getCol n' = g.getCol n' := by
  rw [coerceStep]
  split
  · exact getCol_setCol_ne g n n' _ h
  · rfl

theorem getCol_coerceStep_self_no_txt (g : Frame) (n : String) :
    ((coerceStep g n).getCol n).any Cell.isTxt = false := by
  rw [coerceStep]
  split
  · rw [getCol_setCol_self]
    exact coerceCol_no_txt _
  · next h =>
      rw [getCol_of_not_hasCol g n (by simpa using h)]
      rfl

theorem getCol_foldl_coerceStep_not_mem (l : List String) (g : Frame) (n : String)
    (h : n ∉ l) :
    (l.foldl coerceStep g).getCol n = g.getCol n := by
  induction l generalizing g with
  | nil => rfl
  | cons m rest ih =>
      rw [List.foldl_cons, ih (coerceStep g m) (fun hc => h (List.mem_cons_of_mem m hc))]
      exact getCol_coerceStep_ne g m n (fun hc => h (hc ▸ List.mem_cons_self m rest))

theorem getCol_step_coerce_no_txt (f : Frame) (n : String) (h : n ∈ ohlcvNames) :
    ((step_coerce f).getCol n).any Cell.isTxt = false := by
  rw [step_coerce]
  have main : ∀ (l : List String) (g : Frame), n ∈ l →
      ((l.foldl coerceStep g).getCol n).any Cell.isTxt = false := by
    intro l
    induction l with
    | nil => intro g hg; cases hg
    | cons m rest ih =>
        intro g hg
        by_cases hr : n ∈ rest
        · rw [List.foldl_cons]
          exact ih (coerceStep g m) hr
        · have hnm : n = m := by
            rcases List.mem_cons.mp hg with hc | hc
            · exact hc
            · exact absurd hc hr
          subst hnm
          rw [List.foldl_cons, getCol_foldl_coerceStep_not_mem rest (coerceStep g n) n hr]
          exact getCol_coerceStep_self_no_txt g n
  exact main ohlcvNames f h

theorem coerceStep_id (g : Frame) (n : String)
    (hnd : (g.cols.map Prod.fst).Nodup)
    (h : (g.getCol n).any Cell.isTxt = false) :
    coerceStep g n = g := by
  rw [coerceStep]
  split
  · next hc =>
      rw [coerceCol_of_no_txt _ h]
      exact setCol_self g n hc hnd
  · rfl

theorem foldl_coerceStep_id (l : List String) (g : Frame)
    (hnd : (g.cols.map Prod.fst).Nodup)
    (h : ∀ name ∈ l, (g.getCol name).any Cell.isTxt = false) :
    l.foldl coerceStep g = g := by
  induction l with
  | nil => rfl
  | cons m rest ih =>
      rw [List.foldl_cons, coerceStep_id g m hnd (h m (List.mem_cons_self m rest))]
      exact ih (fun name hm => h name (List.mem_cons_of_mem m hm))

theorem getCol_step_return_ne (f : Frame) (n : String) (h : n ≠ "daily_return") :
    (step_return f).getCol n = f.getCol n := by
  rw [step_return]
  split
  · exact getCol_setCol_ne f _ n _ h
  · rfl

set_option maxHeartbeats 1600000 in
/-- C4 amended: `preprocess_data` is idempotent on every dataset whose
once-processed result is non-empty, has unique column names and no
remaining missing cells (the all-NaN case where cleaning drops every
row is the only failure and is excluded here). -/
theorem preprocess_idempotent (d e : Frame)
    (h1 : preprocess_data (some d) = some e)
    (hnd : (e.cols.map Prod.fst).Nodup)
    (hnan : e.anyNan = false)
    (hne : e.isEmpty = false) :
    preprocess_data (some e) = some e := by
  have hde : d.isEmpty = false := by
    by_contra hc
    simp only [Bool.not_eq_false] at hc
    have hnone : preprocess_data (some d) = none := by
      simp only [preprocess_data]
      rw [preprocessHeap, if_pos (by simp [hc])]
    rw [hnone] at h1
    cases h1
  have he : e = step_return (step_coerce (step_fill (step_tz d))) := by
    have h1' := h1
    simp only [preprocess_data] at h1'
    rw [preprocessHeap, if_neg (by simp [hde])] at h1'
    exact (Option.some.inj h1').symm
  have htz : e.tz = Tz.utc := by
    rw [he, tz_step_return, tz_step_coerce, tz_step_fill, tz_step_tz]
  have hohlcv : ∀ n ∈ ohlcvNames, (e.getCol n).any Cell.isTxt = false := by
    intro n hm
    have hndr : n ≠ "daily_return" := by
      simp only [ohlcvNames, List.mem_cons, List.not_mem_nil, or_false] at hm
      rcases hm with rfl | rfl | rfl | rfl | rfl <;> decide
    rw [he, getCol_step_return_ne _ n hndr]
    exact getCol_step_coerce_no_txt _ n hm
  have s1 : step_tz e = e := step_tz_of_utc e htz
  have s2 : step_fill e = e := step_fill_of_no_nan e hnan
  have s3 : step_coerce e = e := foldl_coerceStep_id ohlcvNames e hnd hohlcv
  have s4 : step_return e = e := by
    by_cases hc3 : (step_coerce (step_fill (step_tz d))).hasCol "close" = true
    · have heq : e = (step_coerce (step_fill (step_tz d))).setCol "daily_return"
          (fillna0 (pctChange (ffillCol none
            ((step_coerce (step_fill (step_tz d))).getCol "close")))) := by
        rw [he, step_return, if_pos hc3]
      have hclose : e.getCol "close" =
          (step_coerce (step_fill (step_tz d))).getCol "close" := by
        rw [heq]
        exact getCol_setCol_ne _ _ _ _ (by decide)
      have hdr : e.getCol "daily_return" = fillna0 (pctChange (ffillCol none
          ((step_coerce (step_fill (step_tz d))).getCol "close"))) := by
        rw [heq]
        exact getCol_setCol_self _ _ _
      have hhasdr : e.hasCol "daily_return" = true := by
        rw [heq]
        exact hasCol_setCol_self _ _ _
      have hhascl : e.hasCol "close" = true := by
        rw [heq, hasCol_setCol_ne _ _ _ _ (by decide)]
        exact hc3
      rw [step_return, if_pos hhascl, hclose, ← hdr]
      exact setCol_self e "daily_return" hhasdr hnd
    · have heq : e = step_coerce (step_fill (step_tz d)) := by
        rw [he, step_return, if_neg hc3]
      rw [heq, step_return, if_neg hc3]
  have hsteps : step_outlier (step_return (step_coerce (step_fill (step_tz e)))) = e := by
    rw [s1, s2, s3, s4]
    rfl
  have hunfold : preprocess_data (some e) =
      some (step_outlier (step_return (step_coerce (step_fill (step_tz e))))) := by
    simp only [preprocess_data]
    rw [preprocessHeap, if_neg (by simp [hne])]
  rw [hunfold, hsteps]

/-- A one-row one-column fixed point of the cleaning pass. -/
def exIdemFrame : Frame := ⟨[5], .utc, [("open", [Cell.num 2])]⟩

/-- One-row close-only frame, fixed by cleaning except for the derived
daily_return column. -/
def exC5Frame : Frame := ⟨[5], .utc, [("close", [Cell.num 2])]⟩

/-- The cleaned form of `exC5Frame`. -/
def exC5Out : Frame := ⟨[5], .utc, [("close", [Cell.num 2]), ("daily_return", [Cell.num 0])]⟩

/-- C4 counterexample: the one-row all-NaN-close frame cleans to a
zero-row frame with no missing values, but cleaning that result again
yields `None` (the empty gate), not the same dataset — so a second
application differs from the first.  -/
theorem preprocess_not_idempotent_on_all_nan :
    preprocess_data (some exNanFrame) = some exNanOut ∧
    exNanOut.anyNan = false ∧
    preprocess_data (some exNanOut) = none := by
  refine ⟨by decide, by decide, by decide⟩

/-- C4 witness: the amended idempotence at a concrete clean frame. -/
theorem preprocess_idempotent_witness :
    preprocess_data (some exIdemFrame) = some exIdemFrame :=
  preprocess_idempotent exIdemFrame exIdemFrame (by decide) (by decide) (by decide)
    (by decide)

/-! ## Daily-return lemmas -/

theorem ffill_getElem?_of_not_nan (l : List Cell) :
    ∀ (acc : Option Cell) (i : Nat) (c : Cell), l[i]? = some c → c.isNan = false →
      (ffillCol acc l)[i]? = some c := by
  induction l with
  | nil => intro acc i c h _; simp at h
  | cons x rest ih =>
      intro acc i c h hc
      cases i with
      | zero =>
          simp only [List.getElem?_cons_zero, Option.some.injEq] at h
          subst h
          rw [ffillCol, if_neg (by simp [hc])]
          simp
      | succ i =>
          simp only [List.getElem?_cons_succ] at h
          rw [ffillCol]
          by_cases hx : x.isNan = true
          · rw [if_pos hx]
            simpa using ih acc i c h hc
          · rw [if_neg hx]
            simpa using ih (some x) i c h hc

theorem getElem?_zipWith {α β γ : Type} (f : α → β → γ) (as : List α) (bs : List β)
    (i : Nat) :
    (List.zipWith f as bs)[i]? =
      match as[i]?, bs[i]? with
      | some a, some b => some (f a b)
      | _, _ => none := by
  induction as generalizing bs i with
  | nil => simp
  | cons a as ih =>
      cases bs with
      | nil => simp
      | cons b bs =>
          cases i with
          | zero => simp
          | succ i => simpa using ih bs i

theorem pctChange_getElem?_zero (l : List Cell) (h : l ≠ []) :
    (pctChange l)[0]? = some Cell.nan := by
  cases l with
  | nil => exact absurd rfl h
  | cons c rest => simp [pctChange]

theorem pctChange_getElem?_succ (l : List Cell) (i : Nat) (a b : Cell)
    (ha : l[i]? = some a) (hb : l[i + 1]? = some b) :
    (pctChange l)[i + 1]? = some (pctCell a b) := by
  cases l with
  | nil => simp at ha
  | cons c rest =>
      rw [pctChange]
      simp only [List.getElem?_cons_succ]
      rw [getElem?_zipWith]
      simp only [List.getElem?_cons_succ] at hb
      rw [ha, hb]

theorem ffill_length (l : List Cell) : ∀ acc, (ffillCol acc l).length = l.length := by
  induction l with
  | nil => intro acc; rfl
  | cons c rest ih =>
      intro acc
      rw [ffillCol]
      split <;> simp [ih]

set_option maxHeartbeats 1600000 in
/-- C5 amended: whenever the cleaned dataset still has close rows, its
daily_return column has value 0 at position 0, and at every later
position `i+1` it equals `close[i+1]/close[i] - 1` (simple percentage
change) whenever the adjacent close cells are numeric with a non-zero
predecessor. -/
theorem preprocess_daily_return (d e : Frame)
    (h1 : preprocess_data (some d) = some e)
    (hcl : e.getCol "close" ≠ []) :
    (e.getCol "daily_return")[0]? = some (Cell.num 0) ∧
    (∀ i a b, (e.getCol "close")[i]? = some (Cell.num a) →
      (e.getCol "close")[i + 1]? = some (Cell.num b) → a ≠ 0 →
      (e.getCol "daily_return")[i + 1]? = some (Cell.num (b / a - 1))) := by
  have hde : d.isEmpty = false := by
    by_contra hc
    simp only [Bool.not_eq_false] at hc
    have hnone : preprocess_data (some d) = none := by
      simp only [preprocess_data]
      rw [preprocessHeap, if_pos (by simp [hc])]
    rw [hnone] at h1
    cases h1
  have he : e = step_return (step_coerce (step_fill (step_tz d))) := by
    have h1' := h1
    simp only [preprocess_data] at h1'
    rw [preprocessHeap, if_neg (by simp [hde])] at h1'
    exact (Option.some.inj h1').symm
  by_cases hc3 : (step_coerce (step_fill (step_tz d))).hasCol "close" = true
  · have heq : e = (step_coerce (step_fill (step_tz d))).setCol "daily_return"
        (fillna0 (pctChange (ffillCol none
          ((step_coerce (step_fill (step_tz d))).getCol "close")))) := by
      rw [he, step_return, if_pos hc3]
    have hclose : e.getCol "close" =
        (step_coerce (step_fill (step_tz d))).getCol "close" := by
      rw [heq]
      exact getCol_setCol_ne _ _ _ _ (by decide)
    have hdr : e.getCol "daily_return" = fillna0 (pctChange (ffillCol none
        ((step_coerce (step_fill (step_tz d))).getCol "close"))) := by
      rw [heq]
      exact getCol_setCol_self _ _ _
    rw [hdr, ← hclose]
    constructor
    · have hffne : ffillCol none (e.getCol "close") ≠ [] := by
        intro hc
        apply hcl
        have := ffill_length (e.getCol "close") none
        rw [hc] at this
        exact List.length_eq_zero.mp this.symm
      rw [fillna0, List.getElem?_map, pctChange_getElem?_zero _ hffne]
      rfl
    · intro i a b hia hib hano
      have hfa : (ffillCol none (e.getCol "close"))[i]? = some (Cell.num a) :=
        ffill_getElem?_of_not_nan _ none i _ hia rfl
      have hfb : (ffillCol none (e.getCol "close"))[i + 1]? = some (Cell.num b) :=
        ffill_getElem?_of_not_nan _ none (i + 1) _ hib rfl
      rw [fillna0, List.getElem?_map, pctChange_getElem?_succ _ i _ _ hfa hfb]
      simp [pctCell, hano, Cell.isNan]
  · exfalso
    apply hcl
    have heq : e = step_coerce (step_fill (step_tz d)) := by
      rw [he, step_return, if_neg hc3]
    rw [heq]
    exact getCol_of_not_hasCol _ _ (by simpa using hc3)

/-- C5 counterexample: a non-empty input with a close column whose only
value is missing — the cleaned result has no row 0 at all, so
`daily_return[0] == 0` fails as stated. -/
theorem preprocess_daily_return_head_missing :
    exNanFrame.isEmpty = false ∧ exNanFrame.hasCol "close" = true ∧
    preprocess_data (some exNanFrame) = some exNanOut ∧
    (exNanOut.getCol "daily_return")[0]? = none := by
  refine ⟨by decide, by decide, by decide, by decide⟩

/-- C5 witness: the amended statement at a concrete one-row frame. -/
theorem preprocess_daily_return_witness :
    (exC5Out.getCol "daily_return")[0]? = some (Cell.num 0) :=
  (preprocess_daily_return exC5Frame exC5Out (by decide) (by decide)).1
